import Mathlib

/-
Verification of the UDMF RuntimeStore (framework/manager/store/runtime_store.cpp)
against its natural-language specification.

The store persists a logical UnifiedData object (one Runtime metadata block plus
an ordered sequence of records) as multiple physical entries of an external
ordered key-value engine.  The engine, the TLV codec, and the data-holder
classes missing from the reviewed sources are modelled from the specification;
the RuntimeStore operation logic is translated line by line from
runtime_store.cpp.
-/

set_option maxHeartbeats 1000000

/-- Modelled from the spec: the closed set of record kinds (UDType enum from
udmf headers, not among the reviewed sources).  The spec (section 9) describes
the record variant set as a closed tagged union, one tag per concrete kind. -/
inductive UDType where
  | TEXT
  | PLAIN_TEXT
  | HTML
  | FILE
  | IMAGE
  | VIDEO
  | SYSTEM_DEFINED_RECORD
  | SYSTEM_DEFINED_FORM
  | SYSTEM_DEFINED_APP_ITEM
  | SYSTEM_DEFINED_PIXEL_MAP
deriving DecidableEq, Repr

/-- Modelled from the spec: UD_TYPE_MAP (udmf headers, not among the reviewed
sources) maps each record-kind tag to its kind name; the Summary is keyed by
these names.  The map is total on the closed kind enumeration. -/
def UD_TYPE_MAP : UDType → String
  | UDType.TEXT => "Text"
  | UDType.PLAIN_TEXT => "Text.PlainText"
  | UDType.HTML => "Text.HTML"
  | UDType.FILE => "File"
  | UDType.IMAGE => "File.Media.Image"
  | UDType.VIDEO => "File.Media.Video"
  | UDType.SYSTEM_DEFINED_RECORD => "SystemDefinedType"
  | UDType.SYSTEM_DEFINED_FORM => "SystemDefinedType.Form"
  | UDType.SYSTEM_DEFINED_APP_ITEM => "SystemDefinedType.AppItem"
  | UDType.SYSTEM_DEFINED_PIXEL_MAP => "SystemDefinedType.PixelMap"

/-- Modelled from the spec: UnifiedKey (unified_key.cpp is not among the
reviewed sources).  Section 4.1: the group key is derived from the Runtime
block's own key field, a slash-separated string. -/
structure UnifiedKey where
  key : String
deriving DecidableEq, Repr

/-- Modelled from the spec: GetUnifiedKey returns the composite key string of
the object (section 4.1, "derived from the Runtime block's own key field"). -/
def UnifiedKey.GetUnifiedKey (k : UnifiedKey) : String := k.key

/-- Modelled from the spec: the Runtime metadata block (section 3): the
composite key plus bookkeeping fields.  The `encodable` flag records whether
the external TLV codec succeeds on this block (the codec is an external
collaborator; its success or failure on a given value is part of the
environment). -/
structure Runtime where
  key : UnifiedKey
  isPrivate : Bool
  createTime : Nat
  sourcePackage : String
  encodable : Bool
deriving DecidableEq, Repr

/-- Modelled from the spec: a record (section 3): a polymorphic payload with a
unique identifier within its UnifiedData, a kind tag, and a computable byte
size (GetSize, an int64).  The `encodable` flag records whether the external
TLV codec succeeds on this record. -/
structure UnifiedRecord where
  uid : String
  utype : UDType
  size : Int
  encodable : Bool
deriving DecidableEq, Repr

/-- SystemDefinedForm (system_defined_form.cpp): the concrete record kind among
the reviewed sources.  `detailsSize` stands for
UnifiedDataUtils::GetDetailsSize(details_) (not among the reviewed sources). -/
structure SystemDefinedForm where
  detailsSize : Nat
  formId : Int
  formName : String
  bundleName : String
  abilityName : String
  module_ : String
deriving DecidableEq, Repr

/-- SystemDefinedForm::GetSize (system_defined_form.cpp lines 25-29): the
details size plus sizeof(formId_) (an int32, 4 bytes) plus the byte lengths of
the four string members. -/
def SystemDefinedForm.GetSize (f : SystemDefinedForm) : Int :=
  (f.detailsSize : Int) + 4 + (f.formName.utf8ByteSize : Int)
    + (f.bundleName.utf8ByteSize : Int) + (f.abilityName.utf8ByteSize : Int)
    + (f.module_.utf8ByteSize : Int)

/-- View of a SystemDefinedForm as a record of the store's record sequence
(its constructor sets dataType_ = SYSTEM_DEFINED_FORM). -/
def SystemDefinedForm.asRecord (f : SystemDefinedForm) (uid : String)
    (encodable : Bool) : UnifiedRecord :=
  { uid := uid, utype := UDType.SYSTEM_DEFINED_FORM, size := f.GetSize,
    encodable := encodable }

/-- Modelled from the spec: UnifiedData (unified_data.cpp is not among the
reviewed sources; section 3): one Runtime block plus an ordered sequence of
records.  Records are held through shared pointers in the source, so a slot
may be null: a slot is `Option UnifiedRecord`.  The runtime pointer is null on
a freshly constructed object, so it is `Option Runtime`. -/
structure UnifiedData where
  runtime : Option Runtime
  records : List (Option UnifiedRecord)
deriving DecidableEq, Repr

/-- Modelled from the spec: a freshly constructed UnifiedData: no runtime set,
no records. -/
def emptyUnifiedData : UnifiedData := { runtime := none, records := [] }

/-- Modelled from the spec: the opaque byte sequence produced by the external
TLV codec.  The codec is out of scope (section 1); a blob is modelled by the
value it encodes, `junk` standing for bytes no decoder accepts (corrupt or
version-mismatched persisted data, section 7). -/
inductive Blob where
  | recBytes (r : UnifiedRecord)
  | rtBytes (rt : Runtime)
  | junk (n : Nat)
deriving DecidableEq, Repr

/-- Modelled from the spec: TLVUtil::Writing on a record (external codec,
section 6: Encode(record) gives bytes or failure). -/
def TLVUtil.writingRecord (r : UnifiedRecord) : Option Blob :=
  if r.encodable then some (Blob.recBytes r) else none

/-- Modelled from the spec: TLVUtil::Writing on a runtime block (external
codec). -/
def TLVUtil.writingRuntime (rt : Runtime) : Option Blob :=
  if rt.encodable then some (Blob.rtBytes rt) else none

/-- Modelled from the spec: TLVUtil::Reading of a record (external codec,
section 6: Decode(bytes) gives a record or failure). -/
def TLVUtil.readingRecord : Blob → Option UnifiedRecord
  | Blob.recBytes r => some r
  | _ => none

/-- Modelled from the spec: TLVUtil::Reading of a runtime block (external
codec). -/
def TLVUtil.readingRuntime : Blob → Option Runtime
  | Blob.rtBytes rt => some rt
  | _ => none

/-- An entry of the key-value engine: `(key, value-bytes)` (section 3).  The
source converts keys between std::string and byte vectors bijectively, so the
key is modelled as the string itself. -/
structure Entry where
  key : String
  value : Blob
deriving DecidableEq, Repr

/-- Modelled from the spec: "Prefix scan: a range query returning all entries
whose key starts with a given prefix" (glossary). -/
def strHasPref (p s : String) : Bool := decide (p.data <+: s.data)

/-- Modelled from the spec: upsert of one entry into the engine's entry list
(the engine is an ordered key-value store; a batch put replaces the value under
an existing key and otherwise adds the entry). -/
def putEntry : List Entry → Entry → List Entry
  | [], e => [e]
  | x :: rest, e => if x.key = e.key then e :: rest else x :: putEntry rest e

/-- Modelled from the spec: the external KV engine (section 2): its current
entries plus the environment's verdict on each batch write and batch delete
(engine failures are external events; section 7 only requires that a failed
batch changes nothing). -/
structure KvStore where
  entries : List Entry
  putBatchOk : List Entry → Bool
  deleteBatchOk : List String → Bool

/-- Modelled from the spec: the engine's prefix range scan, consumed by
RuntimeStore::GetEntries (runtime_store.cpp lines 264-275): all entries whose
key starts with the given prefix. -/
def KvStore.getEntriesList (st : KvStore) (p : String) : List Entry :=
  st.entries.filter (fun e => strHasPref p e.key)

/-- Modelled from the spec: the engine's atomic batch write: every entry of the
batch is upserted, in batch order. -/
def KvStore.putBatchList (st : KvStore) (batch : List Entry) : KvStore :=
  { st with entries := batch.foldl putEntry st.entries }

/-- Modelled from the spec: the engine's atomic batch delete: every entry whose
key is among the given keys is removed. -/
def KvStore.deleteBatchList (st : KvStore) (keys : List String) : KvStore :=
  { st with entries := st.entries.filter (fun e => decide (¬ e.key ∈ keys)) }

/-- The status taxonomy of the store (section 7). -/
inductive Status where
  | E_OK
  | E_INVALID_PARAMETERS
  | E_UNKNOWN
  | E_DB_ERROR
deriving DecidableEq, Repr

/-- RuntimeStore::SLASH_COUNT_IN_KEY (runtime_store.cpp line 30): the group
key's slash count. -/
def SLASH_COUNT_IN_KEY : Nat := 4

/-- Number of '/' characters in a key, as std::count over the key string
(runtime_store.cpp line 256). -/
def slashCount (s : String) : Nat := s.data.count '/'

/-- The record loop of RuntimeStore::Put (runtime_store.cpp lines 48-64): for
each record, skip it when null, otherwise TLV-encode it (failure aborts the
whole operation) and append the entry `unifiedKey + "/" + uid ↦ bytes` to the
batch under construction. -/
def recordEntriesLoop (unifiedKey : String) :
    List (Option UnifiedRecord) → List Entry → Option (List Entry)
  | [], acc => some acc
  | none :: rest, acc => recordEntriesLoop unifiedKey rest acc
  | some r :: rest, acc =>
    match TLVUtil.writingRecord r with
    | none => none
    | some b =>
      recordEntriesLoop unifiedKey rest
        (acc ++ [{ key := unifiedKey ++ "/" ++ r.uid, value := b }])

/-- RuntimeStore::Put (runtime_store.cpp lines 43-81).  The source
unconditionally dereferences GetRuntime(); a null runtime is undefined
behavior there, so the `none` branch below is unreachable for well-formed
input (every theorem about Put assumes the runtime is set). -/
def RuntimeStore.Put (st : KvStore) (unifiedData : UnifiedData) :
    Status × KvStore :=
  match unifiedData.runtime with
  | none => (Status.E_DB_ERROR, st)
  | some rt =>
    let unifiedKey := rt.key.GetUnifiedKey
    match recordEntriesLoop unifiedKey unifiedData.records [] with
    | none => (Status.E_INVALID_PARAMETERS, st)
    | some entries =>
      match TLVUtil.writingRuntime rt with
      | none => (Status.E_UNKNOWN, st)
      | some runtimeBytes =>
        let batch := entries ++ [{ key := unifiedKey, value := runtimeBytes }]
        if st.putBatchOk batch then (Status.E_OK, st.putBatchList batch)
        else (Status.E_DB_ERROR, st)

/-- The entry loop of RuntimeStore::Get (runtime_store.cpp lines 90-109): an
entry whose key equals the queried key is decoded as the Runtime block and
assigned; any other entry is decoded as a record and appended; the first
decode failure returns E_UNKNOWN at once, keeping the output populated so
far. -/
def getLoop (key : String) : List Entry → UnifiedData → Status × UnifiedData
  | [], d => (Status.E_OK, d)
  | e :: rest, d =>
    if e.key = key then
      match TLVUtil.readingRuntime e.value with
      | none => (Status.E_UNKNOWN, d)
      | some rt => getLoop key rest { d with runtime := some rt }
    else
      match TLVUtil.readingRecord e.value with
      | none => (Status.E_UNKNOWN, d)
      | some r => getLoop key rest { d with records := d.records ++ [some r] }

/-- RuntimeStore::Get (runtime_store.cpp lines 83-111): prefix-scan the key;
an empty scan returns E_OK with the output untouched; otherwise run the entry
loop. -/
def RuntimeStore.Get (st : KvStore) (key : String) (unifiedData : UnifiedData) :
    Status × UnifiedData :=
  let entries := st.getEntriesList key
  if entries.isEmpty then (Status.E_OK, unifiedData)
  else getLoop key entries unifiedData

/-- The Summary object (section 3): per-kind cumulative byte sizes (a map keyed
by kind name, as std::map<std::string, int64_t>) plus the total size. -/
structure Summary where
  summary : List (String × Int)
  totalSize : Int
deriving DecidableEq, Repr

/-- Update of the per-kind map of a Summary (runtime_store.cpp lines 123-128):
find the kind's entry and add to it, or insert a fresh one.  Modelled on the
association list underlying the std::map (keys are unique; the first match is
the only match). -/
def summaryAdd : List (String × Int) → String → Int → List (String × Int)
  | [], k, v => [(k, v)]
  | p :: rest, k, v =>
    if p.1 = k then (p.1, p.2 + v) :: rest else p :: summaryAdd rest k v

/-- The record loop of RuntimeStore::GetSummary (runtime_store.cpp lines
121-130): accumulate each record's GetSize() into its kind's entry and into
totalSize.  The source dereferences each record pointer unconditionally; Get
never produces a null slot, so the `none` branch is unreachable there. -/
def summaryLoop : List (Option UnifiedRecord) → Summary → Summary
  | [], sm => sm
  | none :: rest, sm => summaryLoop rest sm
  | some r :: rest, sm =>
    summaryLoop rest
      { summary := summaryAdd sm.summary (UD_TYPE_MAP r.utype) r.size,
        totalSize := sm.totalSize + r.size }

/-- RuntimeStore::GetSummary (runtime_store.cpp lines 113-132): Get into a
fresh UnifiedData; any non-OK status comes back as E_DB_ERROR; on success the
records are folded into the caller's summary. -/
def RuntimeStore.GetSummary (st : KvStore) (key : String) (sm : Summary) :
    Status × Summary :=
  let r := RuntimeStore.Get st key emptyUnifiedData
  if r.1 ≠ Status.E_OK then (Status.E_DB_ERROR, sm)
  else (Status.E_OK, summaryLoop r.2.records sm)

/-- RuntimeStore::Delete (runtime_store.cpp lines 149-166): prefix-scan the
key; an empty scan is a no-op returning E_OK; otherwise batch-delete exactly
the scanned keys, E_DB_ERROR on engine failure. -/
def RuntimeStore.Delete (st : KvStore) (key : String) : Status × KvStore :=
  let entries := st.getEntriesList key
  if entries.isEmpty then (Status.E_OK, st)
  else
    let keys := entries.map (fun e => e.key)
    if st.deleteBatchOk keys then (Status.E_OK, st.deleteBatchList keys)
    else (Status.E_DB_ERROR, st)

/-- RuntimeStore::Update (runtime_store.cpp lines 134-147): Delete under the
runtime key's own key field, then Put; each step's failure is reported as
E_DB_ERROR.  As with Put, a null runtime is undefined behavior in the source
and the `none` branch is unreachable for well-formed input. -/
def RuntimeStore.Update (st : KvStore) (unifiedData : UnifiedData) :
    Status × KvStore :=
  match unifiedData.runtime with
  | none => (Status.E_DB_ERROR, st)
  | some rt =>
    let r1 := RuntimeStore.Delete st rt.key.key
    if r1.1 ≠ Status.E_OK then (Status.E_DB_ERROR, r1.2)
    else
      let r2 := RuntimeStore.Put r1.2 unifiedData
      if r2.1 ≠ Status.E_OK then (Status.E_DB_ERROR, r2.2)
      else (Status.E_OK, r2.2)

/-- RuntimeStore::DeleteBatch (runtime_store.cpp lines 168-179): E_OK on an
empty key list; otherwise the loop runs over every key, calling Delete only
while the accumulated status is still E_OK and keeping the first non-OK
status. -/
def RuntimeStore.DeleteBatch (st : KvStore) (timeoutKeys : List String) :
    Status × KvStore :=
  if timeoutKeys.isEmpty then (Status.E_OK, st)
  else
    timeoutKeys.foldl
      (fun p k =>
        if p.1 = Status.E_OK then RuntimeStore.Delete p.2 k else p)
      (Status.E_OK, st)

/-- RuntimeStore::GetDatas (runtime_store.cpp lines 245-262): prefix-scan;
for each scanned entry whose key has exactly SLASH_COUNT_IN_KEY slashes, Get
into a fresh UnifiedData and append it, ignoring Get's status. -/
def RuntimeStore.GetDatas (st : KvStore) (dataPfx : String) :
    List UnifiedData :=
  let entries := st.getEntriesList dataPfx
  if entries.isEmpty then []
  else
    entries.foldl
      (fun acc e =>
        if slashCount e.key = SLASH_COUNT_IN_KEY then
          acc ++ [(RuntimeStore.Get st e.key emptyUnifiedData).2]
        else acc)
      []

/-- Spec-side transcription of claim C4's composition: Delete the object under
its runtime key's key field and, when that succeeded, Put the new object,
passing each step's own status through. -/
def deleteThenPutSpec (st : KvStore) (unifiedData : UnifiedData) :
    Status × KvStore :=
  match unifiedData.runtime with
  | none => (Status.E_DB_ERROR, st)
  | some rt =>
    let r1 := RuntimeStore.Delete st rt.key.key
    if r1.1 ≠ Status.E_OK then r1
    else RuntimeStore.Put r1.2 unifiedData

/-- Spec-side transcription of claim C5's wording: call Delete on each key in
order only while everything succeeded; the first failure freezes status and
state, and no later Delete runs. -/
def deleteBatchSpec (st : KvStore) : List String → Status × KvStore
  | [] => (Status.E_OK, st)
  | k :: rest =>
    let r := RuntimeStore.Delete st k
    if r.1 = Status.E_OK then deleteBatchSpec r.2 rest else r

/-- Whether an entry decodes successfully in RuntimeStore::Get's loop: the
exact-match key as a Runtime block, any other key as a record. -/
def entryDecodes (key : String) (e : Entry) : Bool :=
  if e.key = key then (TLVUtil.readingRuntime e.value).isSome
  else (TLVUtil.readingRecord e.value).isSome

/-- The effect of one successfully decoded entry on Get's output object. -/
def applyEntry (key : String) (d : UnifiedData) (e : Entry) : UnifiedData :=
  if e.key = key then
    match TLVUtil.readingRuntime e.value with
    | some rt => { d with runtime := some rt }
    | none => d
  else
    match TLVUtil.readingRecord e.value with
    | some r => { d with records := d.records ++ [some r] }
    | none => d

/-- The member entry Put builds for a non-null, encodable record. -/
def memberEntry (unifiedKey : String) (r : UnifiedRecord) : Entry :=
  { key := unifiedKey ++ "/" ++ r.uid, value := Blob.recBytes r }

/-- Sum of the sizes of the non-null records of a record sequence. -/
def sizesSum : List (Option UnifiedRecord) → Int
  | [] => 0
  | none :: rest => sizesSum rest
  | some r :: rest => r.size + sizesSum rest

/-- Sum of the per-kind values of a Summary map. -/
def valuesSum : List (String × Int) → Int
  | [] => 0
  | p :: rest => p.2 + valuesSum rest

/-- Concrete group key used by the witness instances: four '/' characters. -/
def sampleKey : String := "udmf://drag/com.demo/g1"

/-- Concrete runtime block for witness instances. -/
def sampleRuntime : Runtime :=
  { key := { key := sampleKey }, isPrivate := false, createTime := 7,
    sourcePackage := "com.demo", encodable := true }

/-- Concrete encodable record for witness instances. -/
def sampleRecord : UnifiedRecord :=
  { uid := "0", utype := UDType.PLAIN_TEXT, size := 5, encodable := true }

/-- Second concrete encodable record, of another kind. -/
def sampleRecord2 : UnifiedRecord :=
  { uid := "1", utype := UDType.HTML, size := 11, encodable := true }

/-- Concrete record the codec rejects. -/
def badRecord : UnifiedRecord :=
  { uid := "0", utype := UDType.TEXT, size := 5, encodable := false }

/-- Concrete record sitting under the sample group key before a Put, to
exhibit the stale-entry behavior. -/
def staleRecord : UnifiedRecord :=
  { uid := "zzz", utype := UDType.HTML, size := 9, encodable := true }

/-- An engine whose batch operations all succeed, holding the given entries. -/
def kvWith (es : List Entry) : KvStore :=
  { entries := es, putBatchOk := fun _ => true, deleteBatchOk := fun _ => true }

/-- An engine whose batch writes all fail. -/
def kvPutFails (es : List Entry) : KvStore :=
  { entries := es, putBatchOk := fun _ => false, deleteBatchOk := fun _ => true }

/-- Concrete well-formed UnifiedData for witness instances. -/
def sampleData : UnifiedData :=
  { runtime := some sampleRuntime, records := [some sampleRecord, some sampleRecord2] }

/-- Concrete UnifiedData holding a record the codec rejects. -/
def badData : UnifiedData :=
  { runtime := some sampleRuntime, records := [some badRecord] }

/-- Concrete UnifiedData holding a null record slot before a real record. -/
def dataWithNull : UnifiedData :=
  { runtime := some sampleRuntime, records := [none, some sampleRecord] }

/-- Concrete stored state of sampleData: one member entry per record plus the
runtime entry, as Put lays them out. -/
def sampleStoredEntries : List Entry :=
  [{ key := sampleKey ++ "/" ++ "0", value := Blob.recBytes sampleRecord },
   { key := sampleKey ++ "/" ++ "1", value := Blob.recBytes sampleRecord2 },
   { key := sampleKey, value := Blob.rtBytes sampleRuntime }]

/-- Folding the DeleteBatch loop body from a non-OK accumulated status changes
nothing: neither the status nor the store. -/
theorem deleteBatch_foldl_frozen (keys : List String) (s : Status) (st : KvStore)
    (h : ¬ s = Status.E_OK) :
    keys.foldl
      (fun p k => if p.1 = Status.E_OK then RuntimeStore.Delete p.2 k else p)
      (s, st) = (s, st) := by
  induction keys with
  | nil => rfl
  | cons k rest ih =>
    simp only [List.foldl_cons]
    rw [if_neg h]
    exact ih

/-- The DeleteBatch loop started from an OK status agrees with the
short-circuiting composition of Delete calls. -/
theorem deleteBatch_foldl_eq_spec (keys : List String) (st : KvStore) :
    keys.foldl
      (fun p k => if p.1 = Status.E_OK then RuntimeStore.Delete p.2 k else p)
      (Status.E_OK, st) = deleteBatchSpec st keys := by
  induction keys generalizing st with
  | nil => rfl
  | cons k rest ih =>
    simp only [List.foldl_cons, deleteBatchSpec, if_pos rfl]
    cases hD : RuntimeStore.Delete st k with
    | mk s1 st1 =>
      by_cases h : s1 = Status.E_OK
      · subst h
        simpa using ih st1
      · simp only [h, if_neg h]
        exact deleteBatch_foldl_frozen rest s1 st1 h

/-- C5: DeleteBatch returns OK on the empty list; otherwise it calls Delete on
each key in order only while the accumulated status is OK, performs no further
Delete call after the first non-OK status (freezing the store state there),
and returns that first non-OK status (or OK when every Delete succeeded) —
i.e. it coincides with the short-circuiting composition deleteBatchSpec. -/
theorem c5_deleteBatch_short_circuit (st : KvStore) (keys : List String) :
    RuntimeStore.DeleteBatch st keys = deleteBatchSpec st keys := by
  unfold RuntimeStore.DeleteBatch
  cases keys with
  | nil => rfl
  | cons k rest =>
    simp only [List.isEmpty_cons, Bool.false_eq_true, if_false]
    exact deleteBatch_foldl_eq_spec (k :: rest) st

/-- The GetDatas loop is the filter of the scanned entries to the group slash
count, mapped through Get. -/
theorem getDatas_foldl_eq (st : KvStore) (l : List Entry) (acc : List UnifiedData) :
    l.foldl
      (fun acc e =>
        if slashCount e.key = SLASH_COUNT_IN_KEY then
          acc ++ [(RuntimeStore.Get st e.key emptyUnifiedData).2]
        else acc)
      acc
    = acc ++ (l.filter
        (fun e => decide (slashCount e.key = SLASH_COUNT_IN_KEY))).map
          (fun e => (RuntimeStore.Get st e.key emptyUnifiedData).2) := by
  induction l generalizing acc with
  | nil => simp
  | cons e rest ih =>
    by_cases h : slashCount e.key = SLASH_COUNT_IN_KEY
    · simp only [List.foldl_cons, ih]
      simp [List.filter_cons, h]
    · simp only [List.foldl_cons, ih]
      simp [List.filter_cons, h]

/-- C7: GetDatas selects from the scanned entries exactly those whose key
contains the group slash count (SLASH_COUNT_IN_KEY, four '/' characters) and
appends, for each selected key, whatever UnifiedData Get produced, regardless
of Get's status.  In particular a key with five slashes (a member key) never
contributes a top-level element: it is removed by the filter. -/
theorem c7_getDatas_segment_filter (st : KvStore) (dataPfx : String) :
    RuntimeStore.GetDatas st dataPfx
      = ((st.getEntriesList dataPfx).filter
          (fun e => decide (slashCount e.key = SLASH_COUNT_IN_KEY))).map
            (fun e => (RuntimeStore.Get st e.key emptyUnifiedData).2) := by
  unfold RuntimeStore.GetDatas
  by_cases h : (st.getEntriesList dataPfx).isEmpty
  · have hnil : st.getEntriesList dataPfx = [] := List.isEmpty_iff.mp h
    simp [hnil]
  · simp only [h, Bool.false_eq_true, if_false]
    rw [getDatas_foldl_eq]
    simp

/-- A Get-loop step on an entry that decodes successfully applies the entry's
effect and continues. -/
theorem getLoop_cons_decodes (key : String) (e : Entry) (rest : List Entry)
    (d : UnifiedData) (h : entryDecodes key e = true) :
    getLoop key (e :: rest) d = getLoop key rest (applyEntry key d e) := by
  unfold entryDecodes at h
  by_cases hk : e.key = key
  · rw [if_pos hk] at h
    obtain ⟨rt, hrt⟩ := Option.isSome_iff_exists.mp h
    simp only [getLoop, applyEntry, if_pos hk, hrt]
  · rw [if_neg hk] at h
    obtain ⟨r, hr⟩ := Option.isSome_iff_exists.mp h
    simp only [getLoop, applyEntry, if_neg hk, hr]

/-- A Get-loop step on an entry that fails to decode returns E_UNKNOWN at
once, with the output as accumulated so far. -/
theorem getLoop_cons_fails (key : String) (e : Entry) (rest : List Entry)
    (d : UnifiedData) (h : entryDecodes key e = false) :
    getLoop key (e :: rest) d = (Status.E_UNKNOWN, d) := by
  unfold entryDecodes at h
  by_cases hk : e.key = key
  · rw [if_pos hk] at h
    have hn : TLVUtil.readingRuntime e.value = none := by
      cases hv : TLVUtil.readingRuntime e.value with
      | none => rfl
      | some rt => rw [hv] at h; simp at h
    simp only [getLoop, if_pos hk, hn]
  · rw [if_neg hk] at h
    have hn : TLVUtil.readingRecord e.value = none := by
      cases hv : TLVUtil.readingRecord e.value with
      | none => rfl
      | some r => rw [hv] at h; simp at h
    simp only [getLoop, if_neg hk, hn]

/-- Running the Get loop over a list whose first decode failure is at position
`l1.length` stops there with E_UNKNOWN, the output holding exactly the effects
of the successfully decoded elements before it. -/
theorem getLoop_first_failure (key : String) (l1 : List Entry) (e : Entry)
    (l2 : List Entry) (d : UnifiedData)
    (h1 : ∀ x ∈ l1, entryDecodes key x = true) (h2 : entryDecodes key e = false) :
    getLoop key (l1 ++ e :: l2) d = (Status.E_UNKNOWN, l1.foldl (applyEntry key) d) := by
  induction l1 generalizing d with
  | nil =>
    simpa using getLoop_cons_fails key e l2 d h2
  | cons x rest ih =>
    have hx : entryDecodes key x = true := h1 x (List.mem_cons_self x rest)
    have hrest : ∀ y ∈ rest, entryDecodes key y = true :=
      fun y hy => h1 y (List.mem_cons_of_mem x hy)
    rw [List.cons_append, getLoop_cons_decodes key x (rest ++ e :: l2) d hx,
      ih (applyEntry key d x) hrest, List.foldl_cons]

/-- C3: when the prefix scan for the key returns no entries, Get returns E_OK
with the output UnifiedData untouched; and when some scanned entry fails to
decode (as the Runtime block for the exact-match key, as a record otherwise),
Get returns E_UNKNOWN at the first such entry, the output holding exactly the
entries already decoded, in scan order. -/
theorem c3_get_error_contract (st : KvStore) (key : String) (d : UnifiedData) :
    (st.getEntriesList key = [] → RuntimeStore.Get st key d = (Status.E_OK, d)) ∧
    (∀ l1 e l2, st.getEntriesList key = l1 ++ e :: l2 →
      (∀ x ∈ l1, entryDecodes key x = true) → entryDecodes key e = false →
      RuntimeStore.Get st key d = (Status.E_UNKNOWN, l1.foldl (applyEntry key) d)) := by
  constructor
  · intro h
    unfold RuntimeStore.Get
    simp [h]
  · intro l1 e l2 hscan hok hfail
    unfold RuntimeStore.Get
    rw [hscan]
    have hne : (l1 ++ e :: l2).isEmpty = false := by
      cases l1 <;> rfl
    simp only [hne, Bool.false_eq_true, if_false]
    exact getLoop_first_failure key l1 e l2 d hok hfail

/-- Witness for C3: a store holding one undecodable blob under the sample key;
Get returns E_UNKNOWN with the fresh output still empty. -/
theorem c3_get_error_contract_witness :
    RuntimeStore.Get (kvWith [{ key := sampleKey, value := Blob.junk 0 }])
      sampleKey emptyUnifiedData = (Status.E_UNKNOWN, emptyUnifiedData) := by
  have h := (c3_get_error_contract
      (kvWith [{ key := sampleKey, value := Blob.junk 0 }]) sampleKey
      emptyUnifiedData).2 [] { key := sampleKey, value := Blob.junk 0 } []
      (by rfl) (by intro x hx; simp at hx) (by rfl)
  simpa using h

/-- C10: every failure of the inner Delete is returned by Update as
E_DB_ERROR; every failure of the inner Put (run on the post-Delete state),
whatever status Put itself reports — including a record-encode failure
reported as E_INVALID_PARAMETERS or a runtime-encode failure reported as
E_UNKNOWN — is returned by Update as E_DB_ERROR; and Update never returns
anything but E_OK or E_DB_ERROR. -/
theorem c10_update_failure_to_db_error (st : KvStore) (d : UnifiedData)
    (rt : Runtime) (h : d.runtime = some rt) :
    ((RuntimeStore.Delete st rt.key.key).1 ≠ Status.E_OK →
      (RuntimeStore.Update st d).1 = Status.E_DB_ERROR) ∧
    ((RuntimeStore.Delete st rt.key.key).1 = Status.E_OK →
      (RuntimeStore.Put (RuntimeStore.Delete st rt.key.key).2 d).1 ≠ Status.E_OK →
      (RuntimeStore.Update st d).1 = Status.E_DB_ERROR) ∧
    ((RuntimeStore.Update st d).1 = Status.E_OK ∨
      (RuntimeStore.Update st d).1 = Status.E_DB_ERROR) := by
  unfold RuntimeStore.Update
  rw [h]
  by_cases h1 : (RuntimeStore.Delete st rt.key.key).1 = Status.E_OK
  · by_cases h2 :
      (RuntimeStore.Put (RuntimeStore.Delete st rt.key.key).2 d).1 = Status.E_OK
    · refine ⟨fun hc => absurd h1 hc, fun _ hc => absurd h2 hc, Or.inl ?_⟩
      simp [h1, h2]
    · refine ⟨fun hc => absurd h1 hc, fun _ _ => ?_, Or.inr ?_⟩ <;> simp [h1, h2]
  · refine ⟨fun _ => ?_, fun hc => absurd hc h1, Or.inr ?_⟩ <;> simp [h1]

/-- Witness for C10: on an empty engine, the inner Delete of badData's key
succeeds, the inner Put fails (with E_INVALID_PARAMETERS, a record-encode
failure), and Update returns that failure as E_DB_ERROR. -/
theorem c10_update_failure_to_db_error_witness :
    (RuntimeStore.Update (kvWith []) badData).1 = Status.E_DB_ERROR :=
  (c10_update_failure_to_db_error (kvWith []) badData sampleRuntime rfl).2.1
    rfl (by decide)

/-- Unfolding of Put once the runtime is known to be set. -/
theorem put_eq (st : KvStore) (d : UnifiedData) (rt : Runtime)
    (h : d.runtime = some rt) :
    RuntimeStore.Put st d =
      match recordEntriesLoop rt.key.GetUnifiedKey d.records [] with
      | none => (Status.E_INVALID_PARAMETERS, st)
      | some entries =>
        match TLVUtil.writingRuntime rt with
        | none => (Status.E_UNKNOWN, st)
        | some runtimeBytes =>
          if st.putBatchOk
              (entries ++ [{ key := rt.key.GetUnifiedKey, value := runtimeBytes }]) then
            (Status.E_OK,
             st.putBatchList
               (entries ++ [{ key := rt.key.GetUnifiedKey, value := runtimeBytes }]))
          else (Status.E_DB_ERROR, st) := by
  unfold RuntimeStore.Put
  rw [h]

/-- The record loop of Put fails exactly when some non-null record fails to
encode. -/
theorem recordEntriesLoop_eq_none_iff (key : String) :
    ∀ (recs : List (Option UnifiedRecord)) (acc : List Entry),
    recordEntriesLoop key recs acc = none ↔
      ∃ u, some u ∈ recs ∧ TLVUtil.writingRecord u = none := by
  intro recs
  induction recs with
  | nil => intro acc; simp [recordEntriesLoop]
  | cons r rest ih =>
    intro acc
    cases r with
    | none =>
      rw [show recordEntriesLoop key (none :: rest) acc
            = recordEntriesLoop key rest acc from rfl, ih acc]
      constructor
      · rintro ⟨u, hu, hw⟩; exact ⟨u, List.mem_cons_of_mem _ hu, hw⟩
      · rintro ⟨u, hu, hw⟩
        rcases List.mem_cons.mp hu with hh | hh
        · exact absurd hh (by simp)
        · exact ⟨u, hh, hw⟩
    | some u0 =>
      cases hw : TLVUtil.writingRecord u0 with
      | none =>
        simp only [recordEntriesLoop, hw]
        constructor
        · intro _; exact ⟨u0, List.mem_cons_self _ _, hw⟩
        · intro _; trivial
      | some b =>
        simp only [recordEntriesLoop, hw]
        rw [ih _]
        constructor
        · rintro ⟨u, hu, hw2⟩; exact ⟨u, List.mem_cons_of_mem _ hu, hw2⟩
        · rintro ⟨u, hu, hw2⟩
          rcases List.mem_cons.mp hu with hh | hh
          · injection hh with hh
            subst hh
            rw [hw] at hw2
            cases hw2
          · exact ⟨u, hh, hw2⟩

/-- Null record slots are invisible to the record loop of Put. -/
theorem recordEntriesLoop_skip_none (key : String) :
    ∀ (recs : List (Option UnifiedRecord)) (acc : List Entry),
    recordEntriesLoop key (recs.filter (fun r => r.isSome)) acc
      = recordEntriesLoop key recs acc := by
  intro recs
  induction recs with
  | nil => intro acc; rfl
  | cons r rest ih =>
    intro acc
    cases r with
    | none =>
      simpa [List.filter_cons] using ih acc
    | some u0 =>
      simp only [List.filter_cons, Option.isSome_some, if_pos]
      cases hw : TLVUtil.writingRecord u0 with
      | none => simp only [recordEntriesLoop, hw]
      | some b => simp only [recordEntriesLoop, hw]; exact ih _

/-- A successful record loop emits exactly one entry per non-null record slot,
on top of the accumulator. -/
theorem recordEntriesLoop_length (key : String) :
    ∀ (recs : List (Option UnifiedRecord)) (acc es : List Entry),
    recordEntriesLoop key recs acc = some es →
    es.length = acc.length + recs.countP (fun r => r.isSome) := by
  intro recs
  induction recs with
  | nil =>
    intro acc es h
    cases h
    simp
  | cons r rest ih =>
    intro acc es h
    cases r with
    | none =>
      have := ih acc es h
      simpa [List.countP_cons] using this
    | some u0 =>
      cases hw : TLVUtil.writingRecord u0 with
      | none => rw [show recordEntriesLoop key (some u0 :: rest) acc
            = match TLVUtil.writingRecord u0 with
              | none => none
              | some b => recordEntriesLoop key rest
                  (acc ++ [{ key := key ++ "/" ++ u0.uid, value := b }]) from rfl,
          hw] at h; cases h
      | some b =>
        rw [show recordEntriesLoop key (some u0 :: rest) acc
            = match TLVUtil.writingRecord u0 with
              | none => none
              | some bb => recordEntriesLoop key rest
                  (acc ++ [{ key := key ++ "/" ++ u0.uid, value := bb }]) from rfl,
          hw] at h
        have := ih _ es h
        simp only [List.length_append, List.length_cons, List.length_nil,
          List.countP_cons] at this ⊢
        simp [this]
        omega

/-- C2: Put returns E_INVALID_PARAMETERS when some (non-null) record fails to
encode, leaving the engine untouched; when every record encodes but the
runtime block fails to encode, Put returns E_UNKNOWN with the engine
untouched; when the engine rejects the batch write Put returns E_DB_ERROR
with the engine untouched; otherwise Put returns E_OK having submitted the
batch. -/
theorem c2_put_error_contract (st : KvStore) (d : UnifiedData) (rt : Runtime)
    (h : d.runtime = some rt) :
    ((∃ u, some u ∈ d.records ∧ TLVUtil.writingRecord u = none) →
      RuntimeStore.Put st d = (Status.E_INVALID_PARAMETERS, st)) ∧
    (∀ es, recordEntriesLoop rt.key.GetUnifiedKey d.records [] = some es →
      (TLVUtil.writingRuntime rt = none →
        RuntimeStore.Put st d = (Status.E_UNKNOWN, st)) ∧
      (∀ rb, TLVUtil.writingRuntime rt = some rb →
        RuntimeStore.Put st d =
          (if st.putBatchOk (es ++ [{ key := rt.key.GetUnifiedKey, value := rb }]) then
            (Status.E_OK,
             st.putBatchList (es ++ [{ key := rt.key.GetUnifiedKey, value := rb }]))
          else (Status.E_DB_ERROR, st)))) := by
  constructor
  · intro hex
    have hn : recordEntriesLoop rt.key.GetUnifiedKey d.records [] = none :=
      (recordEntriesLoop_eq_none_iff rt.key.GetUnifiedKey d.records []).mpr hex
    rw [put_eq st d rt h, hn]
  · intro es hes
    constructor
    · intro hw
      rw [put_eq st d rt h, hes, hw]
    · intro rb hw
      rw [put_eq st d rt h, hes, hw]

/-- Witness for C2: a record the codec rejects makes Put fail with
E_INVALID_PARAMETERS and an unchanged engine. -/
theorem c2_put_error_contract_witness :
    RuntimeStore.Put (kvWith []) badData = (Status.E_INVALID_PARAMETERS, kvWith []) :=
  (c2_put_error_contract (kvWith []) badData sampleRuntime rfl).1
    ⟨badRecord, by simp [badData], rfl⟩

/-- C9: Put silently skips null record slots: the operation behaves exactly
as on the same data with the null slots dropped, and a successful batch holds
exactly one entry per non-null record plus the runtime entry. -/
theorem c9_put_skips_null_records (st : KvStore) (d : UnifiedData) (rt : Runtime)
    (h : d.runtime = some rt) :
    RuntimeStore.Put st d
        = RuntimeStore.Put st
            { runtime := some rt, records := d.records.filter (fun r => r.isSome) } ∧
    (∀ (es : List Entry) (rb : Blob),
      recordEntriesLoop rt.key.GetUnifiedKey d.records [] = some es →
      TLVUtil.writingRuntime rt = some rb →
      (es ++ ([{ key := rt.key.GetUnifiedKey, value := rb }] : List Entry)).length
        = d.records.countP (fun r => r.isSome) + 1) := by
  constructor
  · rw [put_eq st d rt h,
      put_eq st { runtime := some rt, records := d.records.filter (fun r => r.isSome) } rt rfl]
    simp only [recordEntriesLoop_skip_none]
  · intro es rb hes hw
    have hlen := recordEntriesLoop_length rt.key.GetUnifiedKey d.records [] es hes
    simp only [List.length_append, List.length_cons, List.length_nil] at hlen ⊢
    omega

/-- Witness for C9: the null slot of dataWithNull contributes nothing; the
batch for its single real record has two entries. -/
theorem c9_put_skips_null_records_witness :
    RuntimeStore.Put (kvWith []) dataWithNull
        = RuntimeStore.Put (kvWith [])
            { runtime := some sampleRuntime,
              records := dataWithNull.records.filter (fun r => r.isSome) } ∧
    (([{ key := sampleKey ++ "/" ++ "0", value := Blob.recBytes sampleRecord }] : List Entry)
        ++ ([{ key := sampleRuntime.key.GetUnifiedKey, value := Blob.rtBytes sampleRuntime }] : List Entry)).length
      = dataWithNull.records.countP (fun r => r.isSome) + 1 := by
  have h := c9_put_skips_null_records (kvWith []) dataWithNull sampleRuntime rfl
  exact ⟨h.1, h.2 _ _ rfl rfl⟩

/-- After batch-deleting exactly the keys the prefix scan returned, a new
prefix scan for the same key finds nothing. -/
theorem getEntriesList_after_deleteBatch (st : KvStore) (k : String) :
    (st.deleteBatchList ((st.getEntriesList k).map (fun e => e.key))).getEntriesList k
      = [] := by
  unfold KvStore.deleteBatchList KvStore.getEntriesList
  apply List.filter_eq_nil_iff.mpr
  intro e he hp
  have hmf := List.mem_filter.mp he
  have hnotin : ¬ e.key ∈ (List.filter (fun e => strHasPref k e.key) st.entries).map
      (fun e => e.key) := of_decide_eq_true hmf.2
  exact hnotin (List.mem_map_of_mem _ (List.mem_filter.mpr ⟨hmf.1, hp⟩))

/-- C6: when Delete(k) reports E_OK, a Get(k) against the resulting engine
state returns E_OK and leaves the output UnifiedData exactly as it was passed
in (so a fresh output stays empty: no runtime set, no records appended). -/
theorem c6_delete_then_get (st : KvStore) (k : String) (d : UnifiedData)
    (h : (RuntimeStore.Delete st k).1 = Status.E_OK) :
    RuntimeStore.Get (RuntimeStore.Delete st k).2 k d = (Status.E_OK, d) := by
  unfold RuntimeStore.Delete at h ⊢
  by_cases hE : (st.getEntriesList k).isEmpty
  · simp only [hE, if_true]
    unfold RuntimeStore.Get
    simp [hE]
  · simp only [hE, Bool.false_eq_true, if_false] at h ⊢
    by_cases hD : st.deleteBatchOk ((st.getEntriesList k).map fun e => e.key)
    · simp only [hD, if_true]
      unfold RuntimeStore.Get
      have hnil := getEntriesList_after_deleteBatch st k
      simp [hnil]
    · simp only [hD, Bool.false_eq_true, if_false] at h
      cases h

/-- Witness for C6: deleting the sample object's stored entries succeeds, and
the subsequent Get finds an empty object. -/
theorem c6_delete_then_get_witness :
    RuntimeStore.Get
        (RuntimeStore.Delete (kvWith sampleStoredEntries) sampleKey).2 sampleKey
        emptyUnifiedData
      = (Status.E_OK, emptyUnifiedData) :=
  c6_delete_then_get (kvWith sampleStoredEntries) sampleKey emptyUnifiedData rfl

/-- Adding a size to a kind's slot raises the map's value sum by exactly that
size. -/
theorem valuesSum_summaryAdd (s : List (String × Int)) (k : String) (v : Int) :
    valuesSum (summaryAdd s k v) = valuesSum s + v := by
  induction s with
  | nil => simp [summaryAdd, valuesSum]
  | cons p rest ih =>
    by_cases h : p.1 = k
    · simp only [summaryAdd, h, if_pos rfl, valuesSum]
      ring
    · simp only [summaryAdd, if_neg h, valuesSum, ih]
      ring

/-- The summary loop raises totalSize by the sum of the record sizes. -/
theorem summaryLoop_totalSize (recs : List (Option UnifiedRecord)) :
    ∀ sm : Summary, (summaryLoop recs sm).totalSize = sm.totalSize + sizesSum recs := by
  induction recs with
  | nil => intro sm; simp [summaryLoop, sizesSum]
  | cons r rest ih =>
    intro sm
    cases r with
    | none => simp [summaryLoop, sizesSum, ih]
    | some u =>
      simp only [summaryLoop, sizesSum, ih]
      ring

/-- The summary loop raises the per-kind value sum by the sum of the record
sizes. -/
theorem summaryLoop_valuesSum (recs : List (Option UnifiedRecord)) :
    ∀ sm : Summary,
      valuesSum (summaryLoop recs sm).summary = valuesSum sm.summary + sizesSum recs := by
  induction recs with
  | nil => intro sm; simp [summaryLoop, sizesSum]
  | cons r rest ih =>
    intro sm
    cases r with
    | none => simp [summaryLoop, sizesSum, ih]
    | some u =>
      simp only [summaryLoop, sizesSum, ih, valuesSum_summaryAdd]
      ring

/-- C8: on a successful Get, GetSummary into a fresh Summary returns E_OK
with totalSize equal to the sum of the retrieved records' sizes (the Runtime
block contributes nothing) and with the per-kind sums adding up exactly to
totalSize; a non-OK status from Get comes back as E_DB_ERROR with the
caller's summary untouched. -/
theorem c8_summary_additivity (st : KvStore) (key : String) :
    ((RuntimeStore.Get st key emptyUnifiedData).1 = Status.E_OK →
      (RuntimeStore.GetSummary st key { summary := [], totalSize := 0 }).1 = Status.E_OK ∧
      (RuntimeStore.GetSummary st key { summary := [], totalSize := 0 }).2.totalSize
        = sizesSum (RuntimeStore.Get st key emptyUnifiedData).2.records ∧
      valuesSum (RuntimeStore.GetSummary st key { summary := [], totalSize := 0 }).2.summary
        = (RuntimeStore.GetSummary st key { summary := [], totalSize := 0 }).2.totalSize) ∧
    ((RuntimeStore.Get st key emptyUnifiedData).1 ≠ Status.E_OK →
      ∀ sm : Summary, RuntimeStore.GetSummary st key sm = (Status.E_DB_ERROR, sm)) := by
  constructor
  · intro hOk
    unfold RuntimeStore.GetSummary
    rw [if_neg (by simp [hOk])]
    refine ⟨rfl, ?_, ?_⟩
    · simp [summaryLoop_totalSize]
    · simp [summaryLoop_totalSize, summaryLoop_valuesSum, valuesSum]
  · intro hne sm
    unfold RuntimeStore.GetSummary
    rw [if_pos hne]

/-- Witness for C8 on the stored sample object: totalSize is the sum of the
two record sizes and the per-kind sums add up to it. -/
theorem c8_summary_additivity_witness :
    (RuntimeStore.GetSummary (kvWith sampleStoredEntries) sampleKey
        { summary := [], totalSize := 0 }).1 = Status.E_OK ∧
    (RuntimeStore.GetSummary (kvWith sampleStoredEntries) sampleKey
        { summary := [], totalSize := 0 }).2.totalSize
      = sizesSum (RuntimeStore.Get (kvWith sampleStoredEntries) sampleKey
          emptyUnifiedData).2.records ∧
    valuesSum (RuntimeStore.GetSummary (kvWith sampleStoredEntries) sampleKey
        { summary := [], totalSize := 0 }).2.summary
      = (RuntimeStore.GetSummary (kvWith sampleStoredEntries) sampleKey
          { summary := [], totalSize := 0 }).2.totalSize :=
  (c8_summary_additivity (kvWith sampleStoredEntries) sampleKey).1 rfl

/-- C4 counterexample: on an empty engine and an object whose single record
the codec rejects, the Delete-then-Put composition returns
E_INVALID_PARAMETERS while Update returns E_DB_ERROR, so Update does not
return the same status as the two-step composition. -/
theorem c4_update_counterexample :
    (RuntimeStore.Update (kvWith []) badData).1 = Status.E_DB_ERROR ∧
    (deleteThenPutSpec (kvWith []) badData).1 = Status.E_INVALID_PARAMETERS ∧
    (RuntimeStore.Update (kvWith []) badData).1
      ≠ (deleteThenPutSpec (kvWith []) badData).1 := by
  refine ⟨rfl, rfl, ?_⟩
  decide

/-- C4 amended: Update produces exactly the final engine state of the
short-circuiting Delete-then-Put composition, and returns E_OK exactly when
the composition does; but any non-OK status of the composition is reported by
Update as E_DB_ERROR rather than passed through. -/
theorem c4_update_refines_delete_then_put (st : KvStore) (d : UnifiedData)
    (rt : Runtime) (h : d.runtime = some rt) :
    (RuntimeStore.Update st d).2 = (deleteThenPutSpec st d).2 ∧
    ((RuntimeStore.Update st d).1 = Status.E_OK ↔
      (deleteThenPutSpec st d).1 = Status.E_OK) ∧
    ((deleteThenPutSpec st d).1 ≠ Status.E_OK →
      (RuntimeStore.Update st d).1 = Status.E_DB_ERROR) := by
  unfold RuntimeStore.Update deleteThenPutSpec
  rw [h]
  by_cases h1 : (RuntimeStore.Delete st rt.key.key).1 = Status.E_OK
  · by_cases h2 :
      (RuntimeStore.Put (RuntimeStore.Delete st rt.key.key).2 d).1 = Status.E_OK
    · simp [h1, h2]
    · simp [h1, h2]
  · simp [h1]

/-- Witness for the amended C4 at a concrete store and object. -/
theorem c4_update_refines_delete_then_put_witness :
    (RuntimeStore.Update (kvWith []) sampleData).2
        = (deleteThenPutSpec (kvWith []) sampleData).2 ∧
    ((RuntimeStore.Update (kvWith []) sampleData).1 = Status.E_OK ↔
      (deleteThenPutSpec (kvWith []) sampleData).1 = Status.E_OK) ∧
    ((deleteThenPutSpec (kvWith []) sampleData).1 ≠ Status.E_OK →
      (RuntimeStore.Update (kvWith []) sampleData).1 = Status.E_DB_ERROR) :=
  c4_update_refines_delete_then_put (kvWith []) sampleData sampleRuntime rfl

/-- Appending on the left of a string is cancellable. -/
theorem strApp_left_cancel (s a b : String) (h : s ++ a = s ++ b) : a = b := by
  have hd : (s ++ a).data = (s ++ b).data := by rw [h]
  rw [String.data_append, String.data_append] at hd
  exact String.ext (List.append_cancel_left hd)

/-- Every string is a prefix of itself. -/
theorem strHasPref_self (p : String) : strHasPref p p = true := by
  unfold strHasPref
  exact decide_eq_true (List.prefix_refl _)

/-- A group key is a prefix of each of its member keys. -/
theorem strHasPref_member (k s : String) : strHasPref k ((k ++ "/") ++ s) = true := by
  unfold strHasPref
  apply decide_eq_true
  rw [String.data_append, String.data_append, List.append_assoc]
  exact List.prefix_append _ _

/-- A member key is strictly longer than its group key, hence distinct. -/
theorem memberKey_ne_groupKey (k s : String) : ¬ ((k ++ "/") ++ s = k) := by
  intro h
  have hd := congrArg (fun t => t.data.length) h
  simp only [String.data_append, List.length_append] at hd
  have h1 : ("/" : String).data.length = 1 := rfl
  rw [h1] at hd
  omega

/-- Upserting an entry under a key absent from the list appends it. -/
theorem putEntry_fresh (es : List Entry) (e : Entry)
    (h : ∀ x ∈ es, ¬ x.key = e.key) : putEntry es e = es ++ [e] := by
  induction es with
  | nil => rfl
  | cons x rest ih =>
    rw [show putEntry (x :: rest) e
        = if x.key = e.key then e :: rest else x :: putEntry rest e from rfl,
      if_neg (h x (List.mem_cons_self _ _)),
      ih (fun y hy => h y (List.mem_cons_of_mem _ hy))]
    rfl

/-- A batch of pairwise-distinct keys all absent from the engine is appended
in batch order by the engine's batch write. -/
theorem foldl_putEntry_fresh :
    ∀ (batch es : List Entry),
    (∀ b ∈ batch, ∀ x ∈ es, ¬ x.key = b.key) →
    (batch.map (fun e => e.key)).Nodup →
    batch.foldl putEntry es = es ++ batch := by
  intro batch
  induction batch with
  | nil => intro es _ _; simp
  | cons b rest ih =>
    intro es hfresh hnodup
    rw [List.foldl_cons,
      putEntry_fresh es b (fun x hx => hfresh b (List.mem_cons_self _ _) x hx)]
    simp only [List.map_cons, List.nodup_cons] at hnodup
    have hfresh2 : ∀ c ∈ rest, ∀ x ∈ es ++ [b], ¬ x.key = c.key := by
      intro c hc x hx
      rcases List.mem_append.mp hx with hx1 | hx2
      · exact hfresh c (List.mem_cons_of_mem _ hc) x hx1
      · have hxb : x = b := by simpa using hx2
        subst hxb
        intro hkey
        exact hnodup.1 (by rw [hkey]; exact List.mem_map_of_mem _ hc)
    rw [ih (es ++ [b]) hfresh2 hnodup.2]
    simp

/-- When every record of a null-free sequence encodes, the record loop of Put
produces exactly the member entries, in record order. -/
theorem recordEntriesLoop_all_encodable (key : String) (us : List UnifiedRecord) :
    ∀ acc : List Entry, (∀ u ∈ us, u.encodable = true) →
    recordEntriesLoop key (us.map some) acc
      = some (acc ++ us.map (memberEntry key)) := by
  induction us with
  | nil => intro acc _; simp [recordEntriesLoop]
  | cons u rest ih =>
    intro acc h
    have hw : TLVUtil.writingRecord u = some (Blob.recBytes u) := by
      unfold TLVUtil.writingRecord
      rw [if_pos (h u (List.mem_cons_self _ _))]
    simp only [List.map_cons, recordEntriesLoop, hw]
    rw [ih _ (fun v hv => h v (List.mem_cons_of_mem _ hv))]
    simp [memberEntry]

/-- The Get loop decodes a block of member entries into the corresponding
records, appended in entry order, and goes on with the remaining entries. -/
theorem getLoop_member_entries (key : String) :
    ∀ (us : List UnifiedRecord) (rest : List Entry) (d : UnifiedData),
    (∀ u ∈ us, ¬ (memberEntry key u).key = key) →
    getLoop key (us.map (memberEntry key) ++ rest) d
      = getLoop key rest { d with records := d.records ++ us.map some } := by
  intro us
  induction us with
  | nil =>
    intro rest d _
    simp
  | cons u urest ih =>
    intro rest d hkeys
    simp only [List.map_cons, List.cons_append]
    rw [show getLoop key
          (memberEntry key u :: (List.map (memberEntry key) urest ++ rest)) d
        = getLoop key (List.map (memberEntry key) urest ++ rest)
            { d with records := d.records ++ [some u] } from by
      simp only [getLoop, memberEntry, TLVUtil.readingRecord]
      rw [if_neg (show ¬ key ++ "/" ++ u.uid = key from
        hkeys u (List.mem_cons_self _ _))]]
    rw [ih rest _ (fun v hv => hkeys v (List.mem_cons_of_mem _ hv))]
    simp

/-- C1 counterexample: the round-trip claim fails over an arbitrary initial
engine state.  With a stale member entry already stored under the sample
group key, Put(sampleData) succeeds, yet the subsequent Get returns a record
sequence different from sampleData's (the stale record shows up). -/
theorem c1_round_trip_counterexample :
    (RuntimeStore.Put
        (kvWith [{ key := sampleKey ++ "/" ++ "zzz", value := Blob.recBytes staleRecord }])
        sampleData).1 = Status.E_OK ∧
    (RuntimeStore.Get
        (RuntimeStore.Put
          (kvWith [{ key := sampleKey ++ "/" ++ "zzz", value := Blob.recBytes staleRecord }])
          sampleData).2
        sampleKey emptyUnifiedData).2.records ≠ sampleData.records := by
  refine ⟨rfl, ?_⟩
  decide

/-- C1 amended: for a UnifiedData with its runtime set, a non-empty null-free
record sequence with pairwise distinct uids, and an engine state holding no
entry under the object's unified key, a Put that returns E_OK followed by a
Get of the unified key returns E_OK and reproduces the runtime block and the
record sequence in original order. -/
theorem c1_round_trip_amended (st : KvStore) (d : UnifiedData) (rt : Runtime)
    (us : List UnifiedRecord)
    (hrt : d.runtime = some rt)
    (hrecs : d.records = us.map some)
    (_hne : ¬ d.records = [])
    (hnodup : (us.map (fun u => u.uid)).Nodup)
    (hfresh : st.getEntriesList rt.key.GetUnifiedKey = [])
    (hok : (RuntimeStore.Put st d).1 = Status.E_OK) :
    RuntimeStore.Get (RuntimeStore.Put st d).2 rt.key.GetUnifiedKey emptyUnifiedData
      = (Status.E_OK, { runtime := some rt, records := d.records }) := by
  have hencs : ∀ u ∈ us, u.encodable = true := by
    intro u hu
    by_contra hbad
    have hwn : TLVUtil.writingRecord u = none := by
      unfold TLVUtil.writingRecord
      rw [if_neg hbad]
    have hn : recordEntriesLoop rt.key.GetUnifiedKey d.records [] = none :=
      (recordEntriesLoop_eq_none_iff rt.key.GetUnifiedKey d.records []).mpr
        ⟨u, by rw [hrecs]; exact List.mem_map_of_mem some hu, hwn⟩
    have hbadput : RuntimeStore.Put st d = (Status.E_INVALID_PARAMETERS, st) := by
      rw [put_eq st d rt hrt, hn]
    rw [hbadput] at hok
    simp at hok
  have hloopEq : recordEntriesLoop rt.key.GetUnifiedKey d.records []
      = some (us.map (memberEntry rt.key.GetUnifiedKey)) := by
    rw [hrecs]
    simpa using recordEntriesLoop_all_encodable rt.key.GetUnifiedKey us [] hencs
  have hrtEnc : rt.encodable = true := by
    by_contra hbad
    have hwn : TLVUtil.writingRuntime rt = none := by
      unfold TLVUtil.writingRuntime
      rw [if_neg hbad]
    have hbadput : RuntimeStore.Put st d = (Status.E_UNKNOWN, st) := by
      rw [put_eq st d rt hrt, hloopEq, hwn]
    rw [hbadput] at hok
    simp at hok
  have hw : TLVUtil.writingRuntime rt = some (Blob.rtBytes rt) := by
    unfold TLVUtil.writingRuntime
    rw [if_pos hrtEnc]
  cases hpb : st.putBatchOk (us.map (memberEntry rt.key.GetUnifiedKey)
      ++ [({ key := rt.key.GetUnifiedKey, value := Blob.rtBytes rt } : Entry)]) with
  | false =>
    have hbadput : RuntimeStore.Put st d = (Status.E_DB_ERROR, st) := by
      rw [put_eq st d rt hrt, hloopEq, hw]
      simp [hpb]
    rw [hbadput] at hok
    simp at hok
  | true =>
    have hput : RuntimeStore.Put st d
        = (Status.E_OK,
           st.putBatchList (us.map (memberEntry rt.key.GetUnifiedKey)
             ++ [({ key := rt.key.GetUnifiedKey, value := Blob.rtBytes rt } : Entry)])) := by
      rw [put_eq st d rt hrt, hloopEq, hw]
      simp [hpb]
    rw [hput]
    have hnopref : ∀ x ∈ st.entries,
        ¬ strHasPref rt.key.GetUnifiedKey x.key = true :=
      List.filter_eq_nil_iff.mp hfresh
    have hfreshK : ∀ b ∈ us.map (memberEntry rt.key.GetUnifiedKey)
          ++ [({ key := rt.key.GetUnifiedKey, value := Blob.rtBytes rt } : Entry)],
        ∀ x ∈ st.entries, ¬ x.key = b.key := by
      intro b hb x hx heq
      have hpref : strHasPref rt.key.GetUnifiedKey b.key = true := by
        rcases List.mem_append.mp hb with hb1 | hb2
        · obtain ⟨u, hu, rfl⟩ := List.mem_map.mp hb1
          exact strHasPref_member rt.key.GetUnifiedKey u.uid
        · have hbeq : b = { key := rt.key.GetUnifiedKey, value := Blob.rtBytes rt } := by
            simpa using hb2
          subst hbeq
          exact strHasPref_self _
      exact hnopref x hx (by rw [heq]; exact hpref)
    have hnodupK : ((us.map (memberEntry rt.key.GetUnifiedKey)
          ++ [({ key := rt.key.GetUnifiedKey, value := Blob.rtBytes rt } : Entry)]).map
            (fun e => e.key)).Nodup := by
      rw [List.map_append]
      apply List.Nodup.append
      · rw [show (us.map (memberEntry rt.key.GetUnifiedKey)).map (fun e => e.key)
            = (us.map (fun u => u.uid)).map
                (fun s => (rt.key.GetUnifiedKey ++ "/") ++ s) from by
          rw [List.map_map, List.map_map]
          rfl]
        exact List.Nodup.map
          (fun a b hab => strApp_left_cancel (rt.key.GetUnifiedKey ++ "/") a b hab)
          hnodup
      · exact List.nodup_singleton _
      · intro a ha hb
        have haeq : a = rt.key.GetUnifiedKey := by simpa using hb
        obtain ⟨u, hu, hEq⟩ := List.mem_map.mp ha
        obtain ⟨v, hv, hVq⟩ := List.mem_map.mp hu
        subst hVq
        exact memberKey_ne_groupKey rt.key.GetUnifiedKey v.uid (by
          rw [show (rt.key.GetUnifiedKey ++ "/") ++ v.uid
              = (memberEntry rt.key.GetUnifiedKey v).key from rfl, hEq, haeq])
    have hentries : (st.putBatchList (us.map (memberEntry rt.key.GetUnifiedKey)
          ++ [({ key := rt.key.GetUnifiedKey, value := Blob.rtBytes rt } : Entry)])).entries
        = st.entries ++ (us.map (memberEntry rt.key.GetUnifiedKey)
          ++ [({ key := rt.key.GetUnifiedKey, value := Blob.rtBytes rt } : Entry)]) :=
      foldl_putEntry_fresh _ st.entries hfreshK hnodupK
    have hscan : (st.putBatchList (us.map (memberEntry rt.key.GetUnifiedKey)
          ++ [({ key := rt.key.GetUnifiedKey, value := Blob.rtBytes rt } : Entry)])).getEntriesList
            rt.key.GetUnifiedKey
        = us.map (memberEntry rt.key.GetUnifiedKey)
          ++ [({ key := rt.key.GetUnifiedKey, value := Blob.rtBytes rt } : Entry)] := by
      show List.filter _ _ = _
      rw [show (st.putBatchList (us.map (memberEntry rt.key.GetUnifiedKey)
          ++ [({ key := rt.key.GetUnifiedKey, value := Blob.rtBytes rt } : Entry)])).entries
        = st.entries ++ (us.map (memberEntry rt.key.GetUnifiedKey)
          ++ [({ key := rt.key.GetUnifiedKey, value := Blob.rtBytes rt } : Entry)]) from hentries,
        List.filter_append,
        show List.filter (fun e => strHasPref rt.key.GetUnifiedKey e.key) st.entries = []
          from hfresh]
      rw [List.filter_eq_self.mpr ?_]
      · simp
      · intro b hb
        rcases List.mem_append.mp hb with hb1 | hb2
        · obtain ⟨u, hu, rfl⟩ := List.mem_map.mp hb1
          exact strHasPref_member rt.key.GetUnifiedKey u.uid
        · have hbeq : b = { key := rt.key.GetUnifiedKey, value := Blob.rtBytes rt } := by
            simpa using hb2
          subst hbeq
          exact strHasPref_self _
    unfold RuntimeStore.Get
    have hbne : ((us.map (memberEntry rt.key.GetUnifiedKey)
        ++ [({ key := rt.key.GetUnifiedKey, value := Blob.rtBytes rt } : Entry)])).isEmpty
          = false := by
      cases hm : us.map (memberEntry rt.key.GetUnifiedKey) <;> rfl
    simp only [hscan, hbne, Bool.false_eq_true, if_false]
    rw [getLoop_member_entries rt.key.GetUnifiedKey us
      [({ key := rt.key.GetUnifiedKey, value := Blob.rtBytes rt } : Entry)]
      emptyUnifiedData (fun u _ => memberKey_ne_groupKey rt.key.GetUnifiedKey u.uid)]
    simp only [getLoop, if_pos rfl, TLVUtil.readingRuntime]
    rw [hrecs]
    simp [emptyUnifiedData]

/-- Witness for the amended C1: storing the two-record sample object into an
empty engine and reading it back reproduces it exactly. -/
theorem c1_round_trip_amended_witness :
    RuntimeStore.Get (RuntimeStore.Put (kvWith []) sampleData).2
        sampleRuntime.key.GetUnifiedKey emptyUnifiedData
      = (Status.E_OK,
         { runtime := some sampleRuntime, records := sampleData.records }) :=
  c1_round_trip_amended (kvWith []) sampleData sampleRuntime
    [sampleRecord, sampleRecord2] rfl rfl (by decide) (by decide) rfl rfl
